import Mathlib

/-!
Verification of the request/response contract layer of the
`github-actions-mcp-server` repository, shallowly embedded in Lean 4.

The embedding covers:
* `src/common/utils.ts`: `buildUrl`, the rate-limit / URL-guard prelude of
  `githubRequest`, `validateRepositoryName`, `validateOwnerName`;
* `src/common/errors.ts`: `createGitHubError`;
* `src/operations/actions.ts`: `listWorkflowRuns` (URL construction),
  `getWorkflowRunJobs` (validation-then-gateway pipeline), `triggerWorkflow`.

JavaScript strings are modelled as Lean `String` (a list of characters);
`trim`/`toLowerCase` are modelled explicitly (`jsTrim`, `jsToLower`), with
lowercasing restricted to ASCII, which is the range the validators accept.
`undefined` is modelled by `Option`, JS truthiness of strings/numbers by
explicit emptiness/zero tests, and thrown exceptions by `Except`.
Wall-clock time (`Date.now()`) is an explicit `now : Int` argument
(milliseconds), and the module-level mutable rate-limit variables are an
explicit `RateState` threaded through the gateway model.
-/

/-! ## Character and string helpers (JS `trim` / `toLowerCase`) -/

/-- The characters JavaScript's `String.prototype.trim` removes
(WhiteSpace and LineTerminator code points). -/
def isJsWhitespace (c : Char) : Bool :=
  c.toNat = 9 || c.toNat = 10 || c.toNat = 11 || c.toNat = 12 || c.toNat = 13 ||
  c.toNat = 32 || c.toNat = 160 || c.toNat = 0x1680 ||
  (0x2000 ≤ c.toNat && c.toNat ≤ 0x200A) ||
  c.toNat = 0x2028 || c.toNat = 0x2029 || c.toNat = 0x202F ||
  c.toNat = 0x205F || c.toNat = 0x3000 || c.toNat = 0xFEFF

/-- ASCII lowercasing of a single character, the fragment of JS
`toLowerCase` relevant to the validators (which accept only ASCII). -/
def jsLowerChar (c : Char) : Char :=
  if 65 ≤ c.toNat ∧ c.toNat ≤ 90 then Char.ofNat (c.toNat + 32) else c

/-- Remove JS whitespace from both ends of a character list. -/
def jsTrimList (l : List Char) : List Char :=
  ((l.dropWhile isJsWhitespace).reverse.dropWhile isJsWhitespace).reverse

/-- Model of JS `String.prototype.trim`. -/
def jsTrim (s : String) : String := String.mk (jsTrimList s.data)

/-- Model of JS `String.prototype.toLowerCase` (ASCII fragment). -/
def jsToLower (s : String) : String := String.mk (s.data.map jsLowerChar)

/-- `[a-z]` -/
def isLowerAlpha (c : Char) : Bool := 97 ≤ c.toNat && c.toNat ≤ 122

/-- `[0-9]` -/
def isDigitC (c : Char) : Bool := 48 ≤ c.toNat && c.toNat ≤ 57

/-- `[a-z0-9]`, the character class of the owner-name regex. -/
def isOwnerChar (c : Char) : Bool := isLowerAlpha c || isDigitC c

/-- `[a-z0-9_.-]`, the character class of the repository-name regex. -/
def isRepoChar (c : Char) : Bool :=
  isLowerAlpha c || isDigitC c || c.toNat = 95 || c.toNat = 46 || c.toNat = 45

/-! ## Validators (`src/common/utils.ts`) -/

/-- Matcher for `(?:[a-z0-9]|-(?=[a-z0-9])){0,k}$` applied to `l`:
at most `k` repetitions, each consuming one character, where a hyphen
requires a following alphanumeric via lookahead.  This is the
determinisation of the regex's tail in `validateOwnerName`; the
alternatives are disjoint per character, so no backtracking arises. -/
def ownerTail : List Char → Nat → Bool
  | [], _ => true
  | _ :: _, 0 => false
  | [c], Nat.succ _ => isOwnerChar c
  | c :: d :: rest, Nat.succ k =>
    if isOwnerChar c then ownerTail (d :: rest) k
    else if c = '-' then isOwnerChar d && ownerTail (d :: rest) k
    else false

/-- `/^[a-z0-9](?:[a-z0-9]|-(?=[a-z0-9])){0,38}$/.test` from
`validateOwnerName`. -/
def ownerRegexTest (l : List Char) : Bool :=
  match l with
  | [] => false
  | c :: rest => isOwnerChar c && ownerTail rest 38

/-- `validateOwnerName` from `src/common/utils.ts`: trims and lowercases,
rejects the empty result, rejects anything the owner regex refuses,
and returns the sanitized name otherwise. -/
def validateOwnerName (owner : String) : Except String String :=
  let sanitized := jsToLower (jsTrim owner)
  if sanitized = "" then
    Except.error "Owner name cannot be empty"
  else if ownerRegexTest sanitized.data then
    Except.ok sanitized
  else
    Except.error "Owner name must start with a letter or number and can contain up to 39 characters"

/-- `/^[a-z0-9_.-]+$/.test` from `validateRepositoryName`. -/
def repoRegexTest (l : List Char) : Bool := !l.isEmpty && l.all isRepoChar

/-- `validateRepositoryName` from `src/common/utils.ts`: trims and
lowercases, rejects the empty result, rejects characters outside
`[a-z0-9_.-]`, rejects a leading or trailing period, and returns the
sanitized name otherwise. -/
def validateRepositoryName (name : String) : Except String String :=
  let sanitized := jsToLower (jsTrim name)
  if sanitized = "" then
    Except.error "Repository name cannot be empty"
  else if repoRegexTest sanitized.data = false then
    Except.error "Repository name can only contain lowercase letters, numbers, hyphens, periods, and underscores"
  else if sanitized.data.head? = some '.' ∨ sanitized.data.getLast? = some '.' then
    Except.error "Repository name cannot start or end with a period"
  else
    Except.ok sanitized

/-! ## Specification-side owner-name grammar

The spec states the owner rule as the grammar `[a-z0-9](-?[a-z0-9])*`
with at most 39 characters.  `specOwnerGroups` parses `(-?[a-z0-9])*`
(deterministically: each group is an optional hyphen followed by an
alphanumeric), and `specOwnerAccepts` is the full rule. -/

/-- `(-?[a-z0-9])*` of the spec's owner grammar. -/
def specOwnerGroups : List Char → Bool
  | [] => true
  | [c] => isOwnerChar c
  | c :: d :: rest =>
    if isOwnerChar c then specOwnerGroups (d :: rest)
    else if c = '-' then isOwnerChar d && specOwnerGroups rest
    else false

/-- The spec's owner rule: `[a-z0-9](-?[a-z0-9])*`, at most 39 characters. -/
def specOwnerAccepts (s : String) : Bool :=
  (match s.data with
   | [] => false
   | c :: rest => isOwnerChar c && specOwnerGroups rest) &&
  s.data.length ≤ 39

/-! ### Equivalence of the source regex and the spec grammar -/

theorem specOwnerGroups_cons_alnum {c : Char} (hc : isOwnerChar c = true)
    (r : List Char) : specOwnerGroups (c :: r) = specOwnerGroups r := by
  cases r with
  | nil => simp [specOwnerGroups, hc]
  | cons d r2 => simp [specOwnerGroups, hc]

theorem ownerTail_eq_specOwnerGroups (l : List Char) :
    ∀ k : Nat, ownerTail l k = (specOwnerGroups l && decide (l.length ≤ k)) := by
  induction l with
  | nil => intro k; simp [ownerTail, specOwnerGroups]
  | cons c rest ih =>
    intro k
    cases k with
    | zero =>
      have hlen : ¬ ((c :: rest).length ≤ 0) := by simp
      simp [ownerTail, hlen]
    | succ k =>
      cases rest with
      | nil =>
        have hlen : decide (([c]).length ≤ k + 1) = true :=
          decide_eq_true (by simp)
        simp [ownerTail, specOwnerGroups, hlen]
      | cons d rest2 =>
        have hdec : decide ((c :: d :: rest2).length ≤ k + 1) =
            decide ((d :: rest2).length ≤ k) :=
          decide_eq_decide.mpr (by simp only [List.length_cons]; omega)
        by_cases hc : isOwnerChar c = true
        · have L : ownerTail (c :: d :: rest2) (k + 1) = ownerTail (d :: rest2) k := by
            simp [ownerTail, hc]
          rw [L, ih k, specOwnerGroups_cons_alnum hc, hdec]
        · by_cases hd : c = '-'
          · subst hd
            have hcq : isOwnerChar '-' = false := by decide
            have L : ownerTail ('-' :: d :: rest2) (k + 1) =
                (isOwnerChar d && ownerTail (d :: rest2) k) := by
              simp [ownerTail, hcq]
            have R : specOwnerGroups ('-' :: d :: rest2) =
                (isOwnerChar d && specOwnerGroups rest2) := by
              simp [specOwnerGroups, hcq]
            rw [L, R, ih k, hdec]
            by_cases hdo : isOwnerChar d = true
            · rw [specOwnerGroups_cons_alnum hdo, hdo]
              have hdec2 : decide ((d :: rest2).length ≤ k) =
                  decide (rest2.length + 1 ≤ k) :=
                decide_eq_decide.mpr (by simp only [List.length_cons])
              cases specOwnerGroups rest2 <;>
                cases hdk : decide ((d :: rest2).length ≤ k) <;> simp [hdk]
            · simp [hdo]
          · have L : ownerTail (c :: d :: rest2) (k + 1) = false := by
              simp [ownerTail, hc, hd]
            have R : specOwnerGroups (c :: d :: rest2) = false := by
              simp [specOwnerGroups, hc, hd]
            rw [L, R]
            simp

theorem ownerRegexTest_eq_spec (s : String) :
    ownerRegexTest s.data = specOwnerAccepts s := by
  unfold ownerRegexTest specOwnerAccepts
  cases hs : s.data with
  | nil => simp
  | cons c rest =>
    simp only [ownerTail_eq_specOwnerGroups rest 38, List.length_cons,
      Nat.succ_le_succ_iff]
    cases isOwnerChar c <;> cases specOwnerGroups rest <;>
      cases h38 : decide (rest.length ≤ 38) <;> simp_all

/-! ## Generic helpers for `Except` and strings -/

/-- `true` exactly when an `Except` computation fails (a JS `throw`). -/
def exceptFails {ε α : Type} : Except ε α → Bool
  | Except.error _ => true
  | Except.ok _ => false

theorem string_eq_empty_iff (s : String) : s = "" ↔ s.data = [] := by
  constructor
  · intro h
    subst h
    rfl
  · intro h
    obtain ⟨d⟩ := s
    have hd : d = [] := h
    rw [hd]

theorem dropWhile_eq_self_of_false {p : Char → Bool} {l : List Char}
    (h : ∀ c ∈ l, p c = false) : l.dropWhile p = l := by
  cases l with
  | nil => rfl
  | cons a t =>
    rw [List.dropWhile_cons, h a (by simp)]
    simp

theorem map_eq_self_of_fixed {f : Char → Char} :
    ∀ {l : List Char}, (∀ c ∈ l, f c = c) → l.map f = l := by
  intro l
  induction l with
  | nil => intro _; rfl
  | cons a t ih =>
    intro h
    have ha := h a (by simp)
    have ht := ih (fun c hc => h c (by simp [hc]))
    simp [ha, ht]

theorem jsTrim_eq_self {s : String} (h : ∀ c ∈ s.data, isJsWhitespace c = false) :
    jsTrim s = s := by
  obtain ⟨d⟩ := s
  have hd : ∀ c ∈ d, isJsWhitespace c = false := h
  show String.mk (jsTrimList d) = String.mk d
  unfold jsTrimList
  rw [dropWhile_eq_self_of_false hd,
    dropWhile_eq_self_of_false (fun c hc => hd c (List.mem_reverse.mp hc)),
    List.reverse_reverse]

theorem jsToLower_eq_self {s : String} (h : ∀ c ∈ s.data, jsLowerChar c = c) :
    jsToLower s = s := by
  obtain ⟨d⟩ := s
  show String.mk (d.map jsLowerChar) = String.mk d
  rw [map_eq_self_of_fixed h]

/-- The character classes of the validators exclude whitespace. -/
theorem isRepoChar_not_ws {c : Char} (h : isRepoChar c = true) :
    isJsWhitespace c = false := by
  simp only [isRepoChar, isLowerAlpha, isDigitC, Bool.or_eq_true, Bool.and_eq_true,
    decide_eq_true_eq] at h
  rw [Bool.eq_false_iff]
  intro hw
  simp only [isJsWhitespace, Bool.or_eq_true, Bool.and_eq_true, decide_eq_true_eq] at hw
  omega

/-- The repository character class is fixed under ASCII lowercasing. -/
theorem isRepoChar_lower_fixed {c : Char} (h : isRepoChar c = true) :
    jsLowerChar c = c := by
  simp only [isRepoChar, isLowerAlpha, isDigitC, Bool.or_eq_true, Bool.and_eq_true,
    decide_eq_true_eq] at h
  unfold jsLowerChar
  rw [if_neg (by omega : ¬ (65 ≤ c.toNat ∧ c.toNat ≤ 90))]

/-! ## Characterisation of the validators' success cases -/

theorem validateOwnerName_ok_iff {raw v : String} :
    validateOwnerName raw = Except.ok v ↔
      (v = jsToLower (jsTrim raw) ∧ specOwnerAccepts v = true) := by
  constructor
  · intro h
    simp only [validateOwnerName] at h
    split_ifs at h with h1 h2
    have hv : v = jsToLower (jsTrim raw) := by
      injection h with h
      exact h.symm
    refine ⟨hv, ?_⟩
    rw [hv, ← ownerRegexTest_eq_spec]
    exact h2
  · rintro ⟨hv, hspec⟩
    subst hv
    have hne : ¬ (jsToLower (jsTrim raw) = "") := by
      intro he
      rw [he] at hspec
      simp [specOwnerAccepts] at hspec
    have hr : ownerRegexTest (jsToLower (jsTrim raw)).data = true := by
      rw [ownerRegexTest_eq_spec]
      exact hspec
    simp only [validateOwnerName]
    rw [if_neg hne, if_pos hr]

theorem validateRepositoryName_ok_iff {raw v : String} :
    validateRepositoryName raw = Except.ok v ↔
      (v = jsToLower (jsTrim raw) ∧ v ≠ "" ∧ v.data.all isRepoChar = true ∧
       v.data.head? ≠ some '.' ∧ v.data.getLast? ≠ some '.') := by
  constructor
  · intro h
    simp only [validateRepositoryName] at h
    split_ifs at h with h1 h2 h3
    have hv : v = jsToLower (jsTrim raw) := by
      injection h with h
      exact h.symm
    have hr : repoRegexTest (jsToLower (jsTrim raw)).data = true := by
      cases hcase : repoRegexTest (jsToLower (jsTrim raw)).data
      · exact absurd hcase h2
      · rfl
    have hall : (jsToLower (jsTrim raw)).data.all isRepoChar = true := by
      rw [repoRegexTest, Bool.and_eq_true] at hr
      exact hr.2
    push_neg at h3
    refine ⟨hv, ?_, ?_, ?_, ?_⟩
    · rw [hv]; exact h1
    · rw [hv]; exact hall
    · rw [hv]; exact h3.1
    · rw [hv]; exact h3.2
  · rintro ⟨hv, hne, hall, hh, hl⟩
    subst hv
    have hdata : (jsToLower (jsTrim raw)).data ≠ [] := by
      intro hd
      exact hne ((string_eq_empty_iff _).mpr hd)
    have hr : repoRegexTest (jsToLower (jsTrim raw)).data = true := by
      rw [repoRegexTest, Bool.and_eq_true]
      refine ⟨?_, hall⟩
      cases hcase : (jsToLower (jsTrim raw)).data with
      | nil => exact absurd hcase hdata
      | cons a t => rfl
    simp only [validateRepositoryName]
    rw [if_neg hne, if_neg (by simp [hr]), if_neg (by push_neg; exact ⟨hh, hl⟩)]

/-! ## Error taxonomy (`src/common/errors.ts`) -/

/-- The parsed JSON body of an upstream HTTP error response, restricted to
the two fields `createGitHubError` reads.  A `none` field models an absent
(or `undefined`) property. -/
structure ResponseBody where
  message : Option String
  reset_at : Option String
deriving DecidableEq

/-- A JS `Date` as constructed by `createGitHubError`: either from a
string (`new Date(isoString)`) or from a millisecond count
(`new Date(millis)`). -/
inductive JsDate where
  | ofIso (s : String)
  | ofMillis (ms : Int)
deriving DecidableEq

/-- JS `a || b` on an optional string: falls back on `undefined` and on
the falsy empty string. -/
def jsOrString (o : Option String) (d : String) : String :=
  match o with
  | some s => if s = "" then d else s
  | none => d

/-- A JS default parameter value: applies only when the argument is
`undefined` (the empty string does NOT trigger it). -/
def jsParamDefault (o : Option String) (d : String) : String := o.getD d

/-- The error taxonomy of `src/common/errors.ts`, one constructor per
`GitHubError` subclass reachable from `createGitHubError`. -/
inductive GHErrorModel where
  | authenticationE (message : String)
  | permissionE (message : String)
  | notFoundE (resource : String)
  | conflictE (message : String)
  | validationE (message : String) (status : Int) (response : Option ResponseBody)
  | rateLimitE (message : String) (resetAt : JsDate)
  | genericE (message : String) (status : Int) (response : Option ResponseBody)
deriving DecidableEq

/-- The HTTP status each error class carries (fixed by its constructor,
except `validationE` and `genericE`, which store the status they were
given). -/
def GHErrorModel.statusOf : GHErrorModel → Int
  | .authenticationE _ => 401
  | .permissionE _ => 403
  | .notFoundE _ => 404
  | .conflictE _ => 409
  | .validationE _ s _ => s
  | .rateLimitE _ _ => 429
  | .genericE _ s _ => s

def GHErrorModel.isNotFoundE : GHErrorModel → Bool
  | .notFoundE _ => true
  | _ => false

def GHErrorModel.isRateLimitE : GHErrorModel → Bool
  | .rateLimitE _ _ => true
  | _ => false

def GHErrorModel.isGenericE : GHErrorModel → Bool
  | .genericE _ _ _ => true
  | _ => false

def GHErrorModel.resetAtOf : GHErrorModel → Option JsDate
  | .rateLimitE _ d => some d
  | _ => none

/-- `createGitHubError(status, response)` from `src/common/errors.ts`.
`now` is the value of `Date.now()` at the call.  The `429` case models
`new Date(response?.reset_at || Date.now() + 60000)`: the string is used
only when present and non-empty (JS `||` treats `""` as falsy). -/
def createGitHubError (status : Int) (response : Option ResponseBody) (now : Int) :
    GHErrorModel :=
  let msg := response.bind ResponseBody.message
  if status = 401 then GHErrorModel.authenticationE (jsParamDefault msg "Authentication failed")
  else if status = 403 then GHErrorModel.permissionE (jsParamDefault msg "Insufficient permissions")
  else if status = 404 then GHErrorModel.notFoundE (jsOrString msg "Resource")
  else if status = 409 then GHErrorModel.conflictE (jsOrString msg "Conflict occurred")
  else if status = 422 then GHErrorModel.validationE (jsOrString msg "Validation failed") status response
  else if status = 429 then
    GHErrorModel.rateLimitE (jsParamDefault msg "Rate limit exceeded")
      (match response.bind ResponseBody.reset_at with
       | some s => if s = "" then JsDate.ofMillis (now + 60000) else JsDate.ofIso s
       | none => JsDate.ofMillis (now + 60000))
  else GHErrorModel.genericE (jsOrString msg "GitHub API error") status response

/-- The reset timestamp of a 429 error as the (amended) claim states it:
taken from the response's `reset_at` field when that field is present and
non-empty, and `now + 60s` otherwise. -/
def claimResetDate (response : Option ResponseBody) (now : Int) : JsDate :=
  match response.bind ResponseBody.reset_at with
  | some s => if s = "" then JsDate.ofMillis (now + 60000) else JsDate.ofIso s
  | none => JsDate.ofMillis (now + 60000)

/-! ## Request gateway (`githubRequest` in `src/common/utils.ts`) -/

/-- `MAX_REQUESTS_PER_MINUTE` from `src/common/utils.ts`. -/
def MAX_REQUESTS_PER_MINUTE : Nat := 60

/-- The module-level mutable rate-limit bookkeeping of
`src/common/utils.ts` (`requestCount`, `requestCountResetTime`),
threaded explicitly. -/
structure RateState where
  requestCount : Nat
  requestCountResetTime : Int
deriving DecidableEq

/-- The window-reset check at the top of `githubRequest`:
`if (Date.now() > requestCountResetTime) { requestCount = 0;
requestCountResetTime = Date.now() + 60000; }`. -/
def resetIfElapsed (st : RateState) (now : Int) : RateState :=
  if now > st.requestCountResetTime then RateState.mk 0 (now + 60000) else st

/-- The single trusted API host required by `githubRequest`. -/
def API_BASE : String := "https://api.github.com/"

/-- `url.startsWith('https://api.github.com/')`. -/
def urlAllowed (url : String) : Bool := API_BASE.data.isPrefixOf url.data

/-- `Math.ceil(waitTime / 1000)` for an integer number of milliseconds. -/
def jsCeilDiv1000 (x : Int) : Int := -((-x).ediv 1000)

/-- Outcome of the local (pre-network) part of `githubRequest`. `proceed`
is the only outcome in which the outbound `fetch` is attempted. -/
inductive LocalOutcome where
  | rateLimited (waitSeconds : Int)
  | invalidUrl
  | proceed
deriving DecidableEq

/-- The local prelude of `githubRequest` (utils.ts lines 55-70): reset the
window if elapsed, reject when the quota ceiling is met, increment the
counter, then validate the URL host.  Returns the updated rate state and
the local outcome. -/
def githubRequestAdmit (st : RateState) (now : Int) (url : String) :
    RateState × LocalOutcome :=
  let st1 := resetIfElapsed st now
  if st1.requestCount ≥ MAX_REQUESTS_PER_MINUTE then
    (st1, LocalOutcome.rateLimited (jsCeilDiv1000 (st1.requestCountResetTime - now)))
  else
    let st2 := RateState.mk (st1.requestCount + 1) st1.requestCountResetTime
    if urlAllowed url = false then (st2, LocalOutcome.invalidUrl)
    else (st2, LocalOutcome.proceed)

/-- What the network did, for calls that proceed past the local prelude. -/
inductive NetOutcome where
  | httpResponse (responseOk : Bool) (status : Int) (body : Option ResponseBody)
  | transportAbort
  | transportFailure (code : String)
deriving DecidableEq

/-- The result of a full `githubRequest` call. -/
inductive ReqResult where
  | localRateLimited (waitSeconds : Int)
  | localInvalidUrl
  | success (body : Option ResponseBody)
  | httpError (e : GHErrorModel)
  | timedOut
  | netFailed (code : String)
deriving DecidableEq

/-- Full `githubRequest`: local prelude, then (only on `proceed`) the
network outcome is classified — `!response.ok` statuses go through
`createGitHubError` (utils.ts line 99).  No branch after the prelude
touches the rate state. -/
def githubRequestFull (st : RateState) (now : Int) (url : String) (net : NetOutcome) :
    RateState × ReqResult :=
  match githubRequestAdmit st now url with
  | (st2, LocalOutcome.rateLimited w) => (st2, ReqResult.localRateLimited w)
  | (st2, LocalOutcome.invalidUrl) => (st2, ReqResult.localInvalidUrl)
  | (st2, LocalOutcome.proceed) =>
    (st2,
      match net with
      | NetOutcome.httpResponse rok stat body =>
        if rok then ReqResult.success body
        else ReqResult.httpError (createGitHubError stat body now)
      | NetOutcome.transportAbort => ReqResult.timedOut
      | NetOutcome.transportFailure code => ReqResult.netFailed code)

/-- A sequence of calls through the local prelude, threading the rate
state; returns the final state and the per-call outcomes. -/
def runAdmits : RateState → List (Int × String) → RateState × List LocalOutcome
  | st, [] => (st, [])
  | st, (now, url) :: rest =>
    ((runAdmits (githubRequestAdmit st now url).1 rest).1,
     (githubRequestAdmit st now url).2 ::
       (runAdmits (githubRequestAdmit st now url).1 rest).2)

/-! ## URL construction (`buildUrl` in `src/common/utils.ts`) -/

/-- A query-parameter value: `string | number` in the source. -/
inductive ParamValue where
  | str (s : String)
  | num (n : Int)
deriving DecidableEq

/-- `value.toString()`. -/
def ParamValue.toStr : ParamValue → String
  | .str s => s
  | .num n => toString n

/-- A URL as observed through its base and appended search parameters
(the `URL` object of `buildUrl`). -/
structure UrlModel where
  base : String
  query : List (String × String)
deriving DecidableEq

/-- One iteration of `buildUrl`'s `forEach`: append `key=value.toString()`
when the value is not `undefined`, else leave the URL unchanged. -/
def appendParam (u : UrlModel) (kv : String × Option ParamValue) : UrlModel :=
  match kv.2 with
  | none => u
  | some v => UrlModel.mk u.base (u.query ++ [(kv.1, ParamValue.toStr v)])

/-- `buildUrl(baseUrl, params)` from `src/common/utils.ts`. -/
def buildUrl (baseUrl : String) (params : List (String × Option ParamValue)) : UrlModel :=
  params.foldl appendParam (UrlModel.mk baseUrl [])

/-- Specification-side description of the query `buildUrl` should emit:
exactly the pairs whose value is defined, serialized with `toString`. -/
def definedPairs (params : List (String × Option ParamValue)) : List (String × String) :=
  params.filterMap (fun p =>
    match p.2 with
    | some v => some (p.1, ParamValue.toStr v)
    | none => none)

/-- Render a `UrlModel` to the string handed to the gateway. -/
def UrlModel.render (u : UrlModel) : String :=
  match u.query with
  | [] => u.base
  | _ => u.base ++ "?" ++ String.intercalate "&" (u.query.map (fun p => p.1 ++ "=" ++ p.2))

/-! ## Operations (`src/operations/actions.ts`) -/

/-- `workflowId : string | number`. -/
inductive WorkflowId where
  | str (s : String)
  | num (n : Int)
deriving DecidableEq

/-- Template-literal interpolation of a workflow id. -/
def WorkflowId.render : WorkflowId → String
  | .str s => s
  | .num n => toString n

/-- The options record of `listWorkflowRuns`. -/
structure ListWorkflowRunsOptions where
  workflowId : Option WorkflowId
  actor : Option String
  branch : Option String
  event : Option String
  status : Option String
  created : Option String
  excludePullRequests : Option Bool
  checkSuiteId : Option Int
  page : Option Int
  perPage : Option Int
deriving DecidableEq

/-- JS truthiness of `options.workflowId` (`if (options.workflowId)`):
`undefined`, the empty string and `0` are falsy. -/
def wfIdTruthy : Option WorkflowId → Bool
  | some (WorkflowId.str s) => s != ""
  | some (WorkflowId.num n) => n != 0
  | none => false

def wfIdRender : Option WorkflowId → String
  | some w => WorkflowId.render w
  | none => ""

/-- The parameter record passed to `buildUrl` by `listWorkflowRuns`
(actions.ts lines 164-174).  Note `exclude_pull_requests`:
`options.excludePullRequests ? "true" : undefined`. -/
def listWorkflowRunsParams (o : ListWorkflowRunsOptions) :
    List (String × Option ParamValue) :=
  [("actor", o.actor.map ParamValue.str),
   ("branch", o.branch.map ParamValue.str),
   ("event", o.event.map ParamValue.str),
   ("status", o.status.map ParamValue.str),
   ("created", o.created.map ParamValue.str),
   ("exclude_pull_requests",
     match o.excludePullRequests with
     | some true => some (ParamValue.str "true")
     | _ => none),
   ("check_suite_id", o.checkSuiteId.map ParamValue.num),
   ("page", o.page.map ParamValue.num),
   ("per_page", o.perPage.map ParamValue.num)]

/-- The URL construction of `listWorkflowRuns`: validate owner and repo,
select the per-workflow or per-repository base path, and append the query
parameters. -/
def listWorkflowRunsUrl (owner repo : String) (o : ListWorkflowRunsOptions) :
    Except String UrlModel :=
  match validateOwnerName owner with
  | Except.error e => Except.error e
  | Except.ok ow =>
    match validateRepositoryName repo with
    | Except.error e => Except.error e
    | Except.ok rp =>
      let base :=
        if wfIdTruthy o.workflowId then
          "https://api.github.com/repos/" ++ ow ++ "/" ++ rp ++
            "/actions/workflows/" ++ wfIdRender o.workflowId ++ "/runs"
        else
          "https://api.github.com/repos/" ++ ow ++ "/" ++ rp ++ "/actions/runs"
      Except.ok (buildUrl base (listWorkflowRunsParams o))

/-- The JSON body of a workflow-dispatch request: `{ ref, inputs? }`. -/
structure TriggerBody where
  ref : String
  inputs : Option (List (String × String))
deriving DecidableEq

/-- The outbound request `triggerWorkflow` hands to the gateway. -/
structure TriggerRequest where
  url : String
  method : String
  body : TriggerBody
deriving DecidableEq

/-- The acknowledgement record returned by the action operations. -/
structure ActionAck where
  success : Bool
  message : String
deriving DecidableEq

/-- `triggerWorkflow` from `src/operations/actions.ts`: validate owner and
repo, build the dispatches URL and the body (`inputs` only when defined
and non-empty), and pair the POST request with the acknowledgement the
function returns once the gateway call succeeds (the endpoint returns no
data on success). -/
def triggerWorkflow (owner repo : String) (workflowId : WorkflowId) (ref : String)
    (inputs : Option (List (String × String))) :
    Except String (TriggerRequest × ActionAck) :=
  match validateOwnerName owner with
  | Except.error e => Except.error e
  | Except.ok ow =>
    match validateRepositoryName repo with
    | Except.error e => Except.error e
    | Except.ok rp =>
      let url := "https://api.github.com/repos/" ++ ow ++ "/" ++ rp ++
        "/actions/workflows/" ++ WorkflowId.render workflowId ++ "/dispatches"
      let body := TriggerBody.mk ref
        (match inputs with
         | some l => if 0 < l.length then some l else none
         | none => none)
      Except.ok (TriggerRequest.mk url "POST" body,
        ActionAck.mk true ("Workflow " ++ WorkflowId.render workflowId ++
          " triggered on " ++ ref))

/-- `getWorkflowRunJobs` from `src/operations/actions.ts`, up to the
gateway boundary: validate owner and repo (throwing before any network
activity), build the jobs URL, then enter the gateway's local prelude.
An `Except.error` result means the Request Gateway was never invoked, and
the returned `RateState` shows whether the quota counter was touched. -/
def getWorkflowRunJobsCall (owner repo : String) (runId : Int) (filter : Option String)
    (page perPage : Option Int) (st : RateState) (now : Int) :
    RateState × Except String (UrlModel × LocalOutcome) :=
  match validateOwnerName owner with
  | Except.error e => (st, Except.error e)
  | Except.ok ow =>
    match validateRepositoryName repo with
    | Except.error e => (st, Except.error e)
    | Except.ok rp =>
      let url := buildUrl
        ("https://api.github.com/repos/" ++ ow ++ "/" ++ rp ++ "/actions/runs/" ++
          toString runId ++ "/jobs")
        [("filter", filter.map ParamValue.str),
         ("page", page.map ParamValue.num),
         ("per_page", perPage.map ParamValue.num)]
      let r := githubRequestAdmit st now (UrlModel.render url)
      (r.1, Except.ok (url, r.2))

/-! ## Decidable equality for `Except` results -/

instance {ε α : Type} [DecidableEq ε] [DecidableEq α] : DecidableEq (Except ε α) :=
  fun a b =>
    match a, b with
    | Except.ok x, Except.ok y =>
      if h : x = y then Decidable.isTrue (congrArg Except.ok h)
      else Decidable.isFalse (fun hc => h (by injection hc))
    | Except.error x, Except.error y =>
      if h : x = y then Decidable.isTrue (congrArg Except.error h)
      else Decidable.isFalse (fun hc => h (by injection hc))
    | Except.ok _, Except.error _ => Decidable.isFalse (fun hc => Except.noConfusion hc)
    | Except.error _, Except.ok _ => Decidable.isFalse (fun hc => Except.noConfusion hc)

/-! ## Lemmas about `buildUrl` -/

theorem definedPairs_cons_none (k : String) (rest : List (String × Option ParamValue)) :
    definedPairs ((k, none) :: rest) = definedPairs rest := by
  simp [definedPairs, List.filterMap_cons]

theorem definedPairs_cons_some (k : String) (v : ParamValue)
    (rest : List (String × Option ParamValue)) :
    definedPairs ((k, some v) :: rest) = (k, ParamValue.toStr v) :: definedPairs rest := by
  simp [definedPairs, List.filterMap_cons]

theorem foldl_appendParam (params : List (String × Option ParamValue)) :
    ∀ u : UrlModel, params.foldl appendParam u =
      UrlModel.mk u.base (u.query ++ definedPairs params) := by
  induction params with
  | nil =>
    intro u
    simp [definedPairs]
  | cons p rest ih =>
    intro u
    obtain ⟨k, pv⟩ := p
    cases pv with
    | none =>
      rw [List.foldl_cons, definedPairs_cons_none]
      have ha : appendParam u (k, none) = u := rfl
      rw [ha, ih u]
    | some v =>
      rw [List.foldl_cons, definedPairs_cons_some]
      have ha : appendParam u (k, some v) =
          UrlModel.mk u.base (u.query ++ [(k, ParamValue.toStr v)]) := rfl
      rw [ha, ih]
      simp

theorem buildUrl_eq (baseUrl : String) (params : List (String × Option ParamValue)) :
    buildUrl baseUrl params = UrlModel.mk baseUrl (definedPairs params) := by
  rw [buildUrl, foldl_appendParam]
  simp

theorem mem_definedPairs {params : List (String × Option ParamValue)} {k v : String} :
    (k, v) ∈ definedPairs params ↔
      ∃ pv, (k, some pv) ∈ params ∧ ParamValue.toStr pv = v := by
  induction params with
  | nil => simp [definedPairs]
  | cons p rest ih =>
    obtain ⟨pk, po⟩ := p
    cases po with
    | none =>
      rw [definedPairs_cons_none]
      rw [ih]
      constructor
      · rintro ⟨pv, hmem, hs⟩
        exact ⟨pv, List.mem_cons_of_mem _ hmem, hs⟩
      · rintro ⟨pv, hmem, hs⟩
        rcases List.mem_cons.mp hmem with hhead | htail
        · exact absurd (congrArg Prod.snd hhead) (by simp)
        · exact ⟨pv, htail, hs⟩
    | some v0 =>
      rw [definedPairs_cons_some]
      constructor
      · intro hmem
        rcases List.mem_cons.mp hmem with hhead | htail
        · have hk : k = pk := congrArg Prod.fst hhead
          have hv : v = ParamValue.toStr v0 := congrArg Prod.snd hhead
          subst hk
          exact ⟨v0, List.mem_cons_self .., hv.symm⟩
        · obtain ⟨pv, hm, hs⟩ := ih.mp htail
          exact ⟨pv, List.mem_cons_of_mem _ hm, hs⟩
      · rintro ⟨pv, hmem, hs⟩
        rcases List.mem_cons.mp hmem with hhead | htail
        · have hk : k = pk := congrArg Prod.fst hhead
          have hv : some pv = some v0 := congrArg Prod.snd hhead
          have hv' : pv = v0 := by injection hv
          subst hk
          subst hv'
          subst hs
          exact List.mem_cons_self ..
        · exact List.mem_cons_of_mem _ (ih.mpr ⟨pv, htail, hs⟩)

/-! ## Lemmas about the gateway's local prelude -/

theorem runAdmits_fill (calls : List (Int × String)) :
    ∀ st : RateState,
      (∀ c ∈ calls, c.1 ≤ st.requestCountResetTime ∧ urlAllowed c.2 = true) →
      st.requestCount + calls.length ≤ MAX_REQUESTS_PER_MINUTE →
      runAdmits st calls =
        (RateState.mk (st.requestCount + calls.length) st.requestCountResetTime,
         List.replicate calls.length LocalOutcome.proceed) := by
  induction calls with
  | nil =>
    intro st _ _
    rfl
  | cons c rest ih =>
    intro st hin hcount
    obtain ⟨now, url⟩ := c
    have hc := hin (now, url) (List.mem_cons_self ..)
    have h1 : now ≤ st.requestCountResetTime := hc.1
    have h2 : urlAllowed url = true := hc.2
    have hreset : resetIfElapsed st now = st := by
      unfold resetIfElapsed
      rw [if_neg (by omega)]
    have hmax : MAX_REQUESTS_PER_MINUTE = 60 := rfl
    have hcount' : st.requestCount + (rest.length + 1) ≤ 60 := by
      rw [hmax] at hcount
      simpa [List.length_cons] using hcount
    have hlt : ¬ (st.requestCount ≥ MAX_REQUESTS_PER_MINUTE) := by
      rw [hmax]
      omega
    have hadm : githubRequestAdmit st now url =
        (RateState.mk (st.requestCount + 1) st.requestCountResetTime,
         LocalOutcome.proceed) := by
      simp only [githubRequestAdmit]
      rw [hreset, if_neg hlt, h2]
      simp
    have hih := ih (RateState.mk (st.requestCount + 1) st.requestCountResetTime)
      (fun c2 hc2 => hin c2 (List.mem_cons_of_mem _ hc2))
      (by
        show st.requestCount + 1 + rest.length ≤ MAX_REQUESTS_PER_MINUTE
        rw [hmax]
        omega)
    simp only [runAdmits]
    rw [hadm]
    simp only []
    rw [hih]
    have hcnt : st.requestCount + 1 + rest.length = st.requestCount + (rest.length + 1) := by
      omega
    simp only [List.length_cons, List.replicate_succ, hcnt]

/-! ## Claim theorems -/

/-- C2: after exactly 60 admissions within a 60-second window (all call
times at most the window's reset timestamp, all URLs on the trusted
host), the process-wide counter reaches 60 and every call proceeded; the
61st call within the window then fails locally with the rate-limit
outcome quoting `Math.ceil(waitTime / 1000)` seconds, does not change the
state (no increment) and does not proceed to the network; and whenever a
call arrives after the reset timestamp has elapsed, the window-reset sets
the counter to zero with a new reset timestamp 60 seconds ahead (after
which that call's admission leaves the counter at 1). -/
theorem rateWindow_sixty_then_reject (t0 : Int) (calls : List (Int × String))
    (now61 : Int) (url61 : String)
    (hlen : calls.length = 60)
    (hin : ∀ c ∈ calls, c.1 ≤ t0 + 60000 ∧ urlAllowed c.2 = true)
    (hnow : now61 ≤ t0 + 60000) :
    runAdmits (RateState.mk 0 (t0 + 60000)) calls =
      (RateState.mk 60 (t0 + 60000), List.replicate 60 LocalOutcome.proceed) ∧
    githubRequestAdmit (RateState.mk 60 (t0 + 60000)) now61 url61 =
      (RateState.mk 60 (t0 + 60000),
       LocalOutcome.rateLimited (jsCeilDiv1000 (t0 + 60000 - now61))) ∧
    (∀ (st : RateState) (now2 : Int) (url2 : String),
      now2 > st.requestCountResetTime →
      resetIfElapsed st now2 = RateState.mk 0 (now2 + 60000) ∧
      (githubRequestAdmit st now2 url2).1 = RateState.mk 1 (now2 + 60000)) := by
  refine ⟨?_, ?_, ?_⟩
  · have := runAdmits_fill calls (RateState.mk 0 (t0 + 60000)) hin
      (by
        rw [hlen]
        exact (by decide : (0 : Nat) + 60 ≤ MAX_REQUESTS_PER_MINUTE))
    rw [hlen] at this
    simpa using this
  · have hreset : resetIfElapsed (RateState.mk 60 (t0 + 60000)) now61 =
        RateState.mk 60 (t0 + 60000) := by
      unfold resetIfElapsed
      rw [if_neg (by simp only []; omega)]
    have hcond : (RateState.mk 60 (t0 + 60000)).requestCount ≥ MAX_REQUESTS_PER_MINUTE := by
      show (60 : Nat) ≥ MAX_REQUESTS_PER_MINUTE
      decide
    simp only [githubRequestAdmit]
    rw [hreset, if_pos hcond]
  · intro st now2 url2 hgt
    have hreset : resetIfElapsed st now2 = RateState.mk 0 (now2 + 60000) := by
      unfold resetIfElapsed
      rw [if_pos hgt]
    refine ⟨hreset, ?_⟩
    have hcond : ¬ ((RateState.mk 0 (now2 + 60000)).requestCount ≥
        MAX_REQUESTS_PER_MINUTE) := by
      show ¬ ((0 : Nat) ≥ MAX_REQUESTS_PER_MINUTE)
      decide
    simp only [githubRequestAdmit]
    rw [hreset, if_neg hcond]
    by_cases hu : urlAllowed url2 = false
    · rw [if_pos hu]
    · rw [if_neg hu]

/-- C3: a URL not beginning with `https://api.github.com/` is rejected by
`githubRequest`'s local URL guard — when the quota check passes the
outcome is the local invalid-URL error, and (unconditionally) such a call
never reaches `proceed`, the only outcome in which the outbound `fetch`
is attempted; a URL on the trusted host that passes the quota check is
never rejected by the guard (it proceeds). -/
theorem githubRequest_url_guard (st : RateState) (now : Int) (url : String) :
    (urlAllowed url = false →
      (githubRequestAdmit st now url).2 ≠ LocalOutcome.proceed) ∧
    ((resetIfElapsed st now).requestCount < MAX_REQUESTS_PER_MINUTE →
      (urlAllowed url = false →
        (githubRequestAdmit st now url).2 = LocalOutcome.invalidUrl) ∧
      (urlAllowed url = true →
        (githubRequestAdmit st now url).2 = LocalOutcome.proceed)) := by
  by_cases hq : (resetIfElapsed st now).requestCount < MAX_REQUESTS_PER_MINUTE
  · have hlt : ¬ ((resetIfElapsed st now).requestCount ≥ MAX_REQUESTS_PER_MINUTE) := by
      omega
    constructor
    · intro hu
      simp only [githubRequestAdmit]
      rw [if_neg hlt, if_pos hu]
      exact fun hc => LocalOutcome.noConfusion hc
    · intro _
      constructor
      · intro hu
        simp only [githubRequestAdmit]
        rw [if_neg hlt, if_pos hu]
      · intro hu
        simp only [githubRequestAdmit]
        rw [if_neg hlt, hu]
        simp
  · have hge : (resetIfElapsed st now).requestCount ≥ MAX_REQUESTS_PER_MINUTE := by
      omega
    constructor
    · intro _
      simp only [githubRequestAdmit]
      rw [if_pos hge]
      exact fun hc => LocalOutcome.noConfusion hc
    · intro hc
      exact absurd hc hq

/-- C10: every call admitted past the quota ceiling increments the counter
by exactly one, before the URL host check — so an out-of-host call and a
call whose HTTP request fails (any network outcome) each consume exactly
one unit of the quota; a call rejected by the quota check leaves the
state untouched; and the counter is never decremented (relative to the
post-window-reset state) on any path. -/
theorem githubRequest_counter_monotone (st : RateState) (now : Int) (url : String)
    (net : NetOutcome) :
    ((resetIfElapsed st now).requestCount < MAX_REQUESTS_PER_MINUTE →
      ((githubRequestFull st now url net).1).requestCount =
        (resetIfElapsed st now).requestCount + 1 ∧
      (urlAllowed url = false →
        (githubRequestFull st now url net).2 = ReqResult.localInvalidUrl)) ∧
    (¬ ((resetIfElapsed st now).requestCount < MAX_REQUESTS_PER_MINUTE) →
      (githubRequestFull st now url net).1 = resetIfElapsed st now) ∧
    ((githubRequestFull st now url net).1.requestCount ≥
      (resetIfElapsed st now).requestCount) := by
  by_cases hq : (resetIfElapsed st now).requestCount < MAX_REQUESTS_PER_MINUTE
  · have hlt : ¬ ((resetIfElapsed st now).requestCount ≥ MAX_REQUESTS_PER_MINUTE) := by
      omega
    cases hu : urlAllowed url with
    | false =>
      have hfull : githubRequestFull st now url net =
          ((RateState.mk ((resetIfElapsed st now).requestCount + 1)
              (resetIfElapsed st now).requestCountResetTime),
           ReqResult.localInvalidUrl) := by
        unfold githubRequestFull
        simp only [githubRequestAdmit]
        rw [if_neg hlt, if_pos hu]
      rw [hfull]
      exact ⟨fun _ => ⟨rfl, fun _ => rfl⟩, fun hc => absurd hq hc, by simp⟩
    | true =>
      have hadm : githubRequestAdmit st now url =
          ((RateState.mk ((resetIfElapsed st now).requestCount + 1)
              (resetIfElapsed st now).requestCountResetTime),
           LocalOutcome.proceed) := by
        simp only [githubRequestAdmit]
        rw [if_neg hlt, hu]
        simp
      have hst : (githubRequestFull st now url net).1 =
          RateState.mk ((resetIfElapsed st now).requestCount + 1)
            (resetIfElapsed st now).requestCountResetTime := by
        unfold githubRequestFull
        rw [hadm]
      refine ⟨fun _ => ⟨by rw [hst], fun hu2 => Bool.noConfusion hu2⟩,
        fun hc => absurd hq hc, ?_⟩
      rw [hst]
      simp
  · have hge : (resetIfElapsed st now).requestCount ≥ MAX_REQUESTS_PER_MINUTE := by
      omega
    have hfull : githubRequestFull st now url net =
        (resetIfElapsed st now,
         ReqResult.localRateLimited
           (jsCeilDiv1000 ((resetIfElapsed st now).requestCountResetTime - now))) := by
      unfold githubRequestFull
      simp only [githubRequestAdmit]
      rw [if_pos hge]
    rw [hfull]
    exact ⟨fun hc => absurd hc hq, fun _ => rfl, by simp⟩

/-- C1 counterexample: `createGitHubError(429, {reset_at: ""})` at
`Date.now() = 0`.  The `reset_at` field is present, yet the error's reset
timestamp is the default `now + 60s`, not a date built from the field:
JS `||` treats the empty string as falsy. -/
theorem createGitHubError_reset_empty_cex :
    createGitHubError 429 (some (ResponseBody.mk none (some ""))) 0 =
      GHErrorModel.rateLimitE "Rate limit exceeded" (JsDate.ofMillis 60000) ∧
    createGitHubError 429 (some (ResponseBody.mk none (some ""))) 0 ≠
      GHErrorModel.rateLimitE "Rate limit exceeded" (JsDate.ofIso "") := by
  decide

/-- C1 (amended): `createGitHubError` is a total function of the status,
response body and clock; status 404 always yields the resource-not-found
error; status 429 always yields the rate-limit error whose reset
timestamp is taken from the response's `reset_at` field when that field
is present and non-empty and otherwise defaults to now + 60 seconds; and
every status outside {401, 403, 404, 409, 422, 429} yields the generic
error carrying the original status unchanged. -/
theorem createGitHubError_mapping (status : Int) (response : Option ResponseBody)
    (now : Int) :
    (status = 404 → (createGitHubError status response now).isNotFoundE = true) ∧
    (status = 429 → (createGitHubError status response now).isRateLimitE = true ∧
      (createGitHubError status response now).resetAtOf =
        some (claimResetDate response now)) ∧
    (status ∉ ([401, 403, 404, 409, 422, 429] : List Int) →
      (createGitHubError status response now).isGenericE = true ∧
      (createGitHubError status response now).statusOf = status) := by
  refine ⟨?_, ?_, ?_⟩
  · intro hs
    subst hs
    simp [createGitHubError, GHErrorModel.isNotFoundE]
  · intro hs
    subst hs
    constructor
    · simp [createGitHubError, GHErrorModel.isRateLimitE]
    · simp [createGitHubError, claimResetDate, GHErrorModel.resetAtOf]
  · intro hs
    simp only [List.mem_cons, List.not_mem_nil, or_false, not_or] at hs
    obtain ⟨h1, h2, h3, h4, h5, h6⟩ := hs
    simp [createGitHubError, GHErrorModel.isGenericE, GHErrorModel.statusOf,
      h1, h2, h3, h4, h5, h6]

theorem createGitHubError_mapping_witness :
    (createGitHubError 404 none 0).isNotFoundE = true ∧
    ((createGitHubError 429 none 0).isRateLimitE = true ∧
      (createGitHubError 429 none 0).resetAtOf = some (claimResetDate none 0)) ∧
    ((createGitHubError 418 none 0).isGenericE = true ∧
      (createGitHubError 418 none 0).statusOf = 418) :=
  ⟨(createGitHubError_mapping 404 none 0).1 rfl,
   (createGitHubError_mapping 429 none 0).2.1 rfl,
   (createGitHubError_mapping 418 none 0).2.2 (by decide)⟩

theorem rateWindow_sixty_then_reject_witness :
    runAdmits (RateState.mk 0 ((0 : Int) + 60000))
        (List.replicate 60 ((0 : Int), "https://api.github.com/x")) =
      (RateState.mk 60 ((0 : Int) + 60000), List.replicate 60 LocalOutcome.proceed) ∧
    githubRequestAdmit (RateState.mk 60 ((0 : Int) + 60000)) 30000
        "https://api.github.com/x" =
      (RateState.mk 60 ((0 : Int) + 60000),
       LocalOutcome.rateLimited (jsCeilDiv1000 ((0 : Int) + 60000 - 30000))) :=
  ⟨(rateWindow_sixty_then_reject 0
      (List.replicate 60 ((0 : Int), "https://api.github.com/x"))
      30000 "https://api.github.com/x" (by decide) (by decide) (by decide)).1,
   (rateWindow_sixty_then_reject 0
      (List.replicate 60 ((0 : Int), "https://api.github.com/x"))
      30000 "https://api.github.com/x" (by decide) (by decide) (by decide)).2.1⟩

theorem githubRequest_url_guard_witness :
    (githubRequestAdmit (RateState.mk 0 (60000 : Int)) 0 "http://evil.example/x").2 ≠
      LocalOutcome.proceed ∧
    (githubRequestAdmit (RateState.mk 0 (60000 : Int)) 0 "http://evil.example/x").2 =
      LocalOutcome.invalidUrl ∧
    (githubRequestAdmit (RateState.mk 0 (60000 : Int)) 0 "https://api.github.com/x").2 =
      LocalOutcome.proceed :=
  ⟨(githubRequest_url_guard (RateState.mk 0 (60000 : Int)) 0 "http://evil.example/x").1
      (by decide),
   ((githubRequest_url_guard (RateState.mk 0 (60000 : Int)) 0 "http://evil.example/x").2
      (by decide)).1 (by decide),
   ((githubRequest_url_guard (RateState.mk 0 (60000 : Int)) 0 "https://api.github.com/x").2
      (by decide)).2 (by decide)⟩

theorem githubRequest_counter_monotone_witness :
    ((githubRequestFull (RateState.mk 0 (60000 : Int)) 0 "http://evil.example/x"
        NetOutcome.transportAbort).1).requestCount =
      (resetIfElapsed (RateState.mk 0 (60000 : Int)) 0).requestCount + 1 ∧
    (githubRequestFull (RateState.mk 0 (60000 : Int)) 0 "http://evil.example/x"
        NetOutcome.transportAbort).2 = ReqResult.localInvalidUrl ∧
    (githubRequestFull (RateState.mk 60 (60000 : Int)) 0 "https://api.github.com/x"
        NetOutcome.transportAbort).1 = resetIfElapsed (RateState.mk 60 (60000 : Int)) 0 :=
  ⟨((githubRequest_counter_monotone (RateState.mk 0 (60000 : Int)) 0
      "http://evil.example/x" NetOutcome.transportAbort).1 (by decide)).1,
   ((githubRequest_counter_monotone (RateState.mk 0 (60000 : Int)) 0
      "http://evil.example/x" NetOutcome.transportAbort).1 (by decide)).2 (by decide),
   (githubRequest_counter_monotone (RateState.mk 60 (60000 : Int)) 0
      "https://api.github.com/x" NetOutcome.transportAbort).2.1 (by decide)⟩

/-- Options with only `excludePullRequests = false` set. -/
def epFalseOptions : ListWorkflowRunsOptions :=
  ListWorkflowRunsOptions.mk none none none none none none (some false) none none none

/-- Options with only `excludePullRequests = true` set. -/
def epTrueOptions : ListWorkflowRunsOptions :=
  ListWorkflowRunsOptions.mk none none none none none none (some true) none none none

/-- C4 counterexample: with `excludePullRequests` explicitly `false`, the
built URL has an empty query — the parameter is omitted, not serialized
as the literal string `"false"` (the source uses the ternary
`options.excludePullRequests ? "true" : undefined`). -/
theorem listWorkflowRuns_excludePr_false_cex :
    listWorkflowRunsUrl "octo" "demo" epFalseOptions =
      Except.ok (UrlModel.mk "https://api.github.com/repos/octo/demo/actions/runs" []) ∧
    ("exclude_pull_requests", "false") ∉ ([] : List (String × String)) := by
  constructor
  · decide
  · simp

/-- C4 (amended): in `listWorkflowRuns` every query pair in the built URL
comes from a parameter whose value is defined (no `key=undefined` pair is
ever emitted), and `excludePullRequests` is serialized as the literal
string `"true"` exactly when it is explicitly `true`; when it is unset or
explicitly `false` the parameter is omitted from the URL. -/
theorem listWorkflowRuns_query_params (owner repo : String)
    (o : ListWorkflowRunsOptions) (u : UrlModel)
    (h : listWorkflowRunsUrl owner repo o = Except.ok u) :
    (∀ k v, (k, v) ∈ u.query →
      ∃ pv, (k, some pv) ∈ listWorkflowRunsParams o ∧ ParamValue.toStr pv = v) ∧
    (o.excludePullRequests = some true → ("exclude_pull_requests", "true") ∈ u.query) ∧
    (o.excludePullRequests ≠ some true →
      ∀ v, ("exclude_pull_requests", v) ∉ u.query) := by
  have hq : u.query = definedPairs (listWorkflowRunsParams o) := by
    cases ho : validateOwnerName owner with
    | error e =>
      rw [listWorkflowRunsUrl, ho] at h
      exact Except.noConfusion h
    | ok ow =>
      cases hr : validateRepositoryName repo with
      | error e =>
        rw [listWorkflowRunsUrl, ho, hr] at h
        exact Except.noConfusion h
      | ok rp =>
        rw [listWorkflowRunsUrl, ho, hr] at h
        simp only [] at h
        have hu : u = buildUrl
            (if wfIdTruthy o.workflowId then
              "https://api.github.com/repos/" ++ ow ++ "/" ++ rp ++
                "/actions/workflows/" ++ wfIdRender o.workflowId ++ "/runs"
            else
              "https://api.github.com/repos/" ++ ow ++ "/" ++ rp ++ "/actions/runs")
            (listWorkflowRunsParams o) := by
          injection h with h
          exact h.symm
        rw [hu, buildUrl_eq]
  refine ⟨?_, ?_, ?_⟩
  · intro k v hmem
    rw [hq] at hmem
    exact mem_definedPairs.mp hmem
  · intro hep
    rw [hq]
    apply mem_definedPairs.mpr
    refine ⟨ParamValue.str "true", ?_, rfl⟩
    simp [listWorkflowRunsParams, hep]
  · intro hep v hmem
    rw [hq] at hmem
    obtain ⟨pv, hin, _⟩ := mem_definedPairs.mp hmem
    simp only [listWorkflowRunsParams, List.mem_cons, List.not_mem_nil, or_false,
      Prod.mk.injEq] at hin
    rcases hin with ⟨hk, _⟩ | ⟨hk, _⟩ | ⟨hk, _⟩ | ⟨hk, _⟩ | ⟨hk, _⟩ |
      ⟨_, hv⟩ | ⟨hk, _⟩ | ⟨hk, _⟩ | ⟨hk, _⟩
    · exact absurd hk (by decide)
    · exact absurd hk (by decide)
    · exact absurd hk (by decide)
    · exact absurd hk (by decide)
    · exact absurd hk (by decide)
    · rcases hex : o.excludePullRequests with _ | b
      · exact Option.noConfusion hv
      · cases b with
        | false => exact Option.noConfusion hv
        | true => exact hep hex
    · exact absurd hk (by decide)
    · exact absurd hk (by decide)
    · exact absurd hk (by decide)

theorem listWorkflowRuns_query_params_witness :
    ("exclude_pull_requests", "true") ∈
      (UrlModel.mk "https://api.github.com/repos/octo/demo/actions/runs"
        [("exclude_pull_requests", "true")]).query :=
  (listWorkflowRuns_query_params "octo" "demo" epTrueOptions
    (UrlModel.mk "https://api.github.com/repos/octo/demo/actions/runs"
      [("exclude_pull_requests", "true")]) (by decide)).2.1 rfl

/-- C5: `triggerWorkflow("octo", "demo", "ci.yml", "main")` with no inputs
builds a POST to the workflow-dispatches path with body `{ref: "main"}`
(no `inputs` field), and — once the gateway call succeeds (the endpoint
returns no data) — returns exactly
`{success: true, message: "Workflow ci.yml triggered on main"}`. -/
theorem triggerWorkflow_octo_demo :
    triggerWorkflow "octo" "demo" (WorkflowId.str "ci.yml") "main" none =
      Except.ok
        (TriggerRequest.mk
          "https://api.github.com/repos/octo/demo/actions/workflows/ci.yml/dispatches"
          "POST" (TriggerBody.mk "main" none),
         ActionAck.mk true "Workflow ci.yml triggered on main") := by
  decide

/-- C6: `validateOwnerName` first trims and lowercases its input; it
returns exactly that sanitized string whenever the sanitized string
satisfies the spec's rule `[a-z0-9](-?[a-z0-9])*` of at most 39
characters, and fails (with an error, as a JS `throw`) whenever the
sanitized string violates the rule — which includes the empty string,
strings over 39 characters, and leading/trailing/double hyphens. -/
theorem validateOwnerName_rule (raw : String) :
    (specOwnerAccepts (jsToLower (jsTrim raw)) = true →
      validateOwnerName raw = Except.ok (jsToLower (jsTrim raw))) ∧
    (specOwnerAccepts (jsToLower (jsTrim raw)) = false →
      exceptFails (validateOwnerName raw) = true) := by
  constructor
  · intro h
    exact validateOwnerName_ok_iff.mpr ⟨rfl, h⟩
  · intro h
    cases hres : validateOwnerName raw with
    | error e => rfl
    | ok v =>
      obtain ⟨hv, hacc⟩ := validateOwnerName_ok_iff.mp hres
      rw [hv] at hacc
      rw [h] at hacc
      exact Bool.noConfusion hacc

theorem validateOwnerName_rule_witness :
    validateOwnerName " Octo-Cat " = Except.ok (jsToLower (jsTrim " Octo-Cat ")) ∧
    exceptFails (validateOwnerName " -bad") = true :=
  ⟨(validateOwnerName_rule " Octo-Cat ").1 (by decide),
   (validateOwnerName_rule " -bad").2 (by decide)⟩

/-- C7: `validateRepositoryName` fails whenever the trimmed lowercased
form of its input is empty, contains a character outside `[a-z0-9_.-]`,
or starts or ends with a period; and it is idempotent on its valid
outputs: whenever it accepts an input and returns `v`, applying it to `v`
succeeds and returns `v` itself. -/
theorem validateRepositoryName_rule (raw : String) :
    ((jsToLower (jsTrim raw) = "" ∨
      (∃ c ∈ (jsToLower (jsTrim raw)).data, isRepoChar c = false) ∨
      (jsToLower (jsTrim raw)).data.head? = some '.' ∨
      (jsToLower (jsTrim raw)).data.getLast? = some '.') →
      exceptFails (validateRepositoryName raw) = true) ∧
    (∀ v, validateRepositoryName raw = Except.ok v →
      validateRepositoryName v = Except.ok v) := by
  constructor
  · intro hbad
    cases hres : validateRepositoryName raw with
    | error e => rfl
    | ok v =>
      exfalso
      obtain ⟨hv, hne, hall, hh, hl⟩ := validateRepositoryName_ok_iff.mp hres
      subst hv
      rcases hbad with h1 | h2 | h3 | h4
      · exact hne h1
      · obtain ⟨c, hc, hcf⟩ := h2
        have hct := List.all_eq_true.mp hall c hc
        rw [hct] at hcf
        exact Bool.noConfusion hcf
      · exact hh h3
      · exact hl h4
  · intro v hok
    obtain ⟨hv, hne, hall, hh, hl⟩ := validateRepositoryName_ok_iff.mp hok
    have hallm : ∀ c ∈ v.data, isRepoChar c = true := List.all_eq_true.mp hall
    have htrim : jsTrim v = v :=
      jsTrim_eq_self (fun c hc => isRepoChar_not_ws (hallm c hc))
    have hlow : jsToLower v = v :=
      jsToLower_eq_self (fun c hc => isRepoChar_lower_fixed (hallm c hc))
    apply validateRepositoryName_ok_iff.mpr
    refine ⟨?_, hne, hall, hh, hl⟩
    rw [htrim, hlow]

theorem validateRepositoryName_rule_witness :
    exceptFails (validateRepositoryName " bad name ") = true ∧
    validateRepositoryName "my.repo" = Except.ok "my.repo" :=
  ⟨(validateRepositoryName_rule " bad name ").1 (by decide),
   (validateRepositoryName_rule " My.Repo ").2 "my.repo" (by decide)⟩

/-- C8: when the owner fails validation, `getWorkflowRunJobs` fails with
that input-validation error before anything else happens: the returned
rate state is the input state (no quota unit consumed) and the result is
the validation error — the gateway (whose invocation is what produces the
`Except.ok` carrying the URL and admission outcome) is never reached. -/
theorem getWorkflowRunJobs_invalid_owner (owner repo : String) (runId : Int)
    (filter : Option String) (page perPage : Option Int) (st : RateState) (now : Int)
    (e : String) (h : validateOwnerName owner = Except.error e) :
    getWorkflowRunJobsCall owner repo runId filter page perPage st now =
      (st, Except.error e) := by
  rw [getWorkflowRunJobsCall, h]

theorem getWorkflowRunJobs_invalid_owner_witness :
    getWorkflowRunJobsCall "Bad Owner" "demo" 7 none none none
        (RateState.mk 3 (60000 : Int)) 0 =
      (RateState.mk 3 (60000 : Int),
       Except.error "Owner name must start with a letter or number and can contain up to 39 characters") :=
  getWorkflowRunJobs_invalid_owner "Bad Owner" "demo" 7 none none none
    (RateState.mk 3 (60000 : Int)) 0
    "Owner name must start with a letter or number and can contain up to 39 characters"
    (by decide)

/-- C9: `buildUrl` appends exactly the key-value pairs whose value is not
`undefined`, each serialized with `toString`, in order, and omits every
key whose value is `undefined`; in particular
`buildUrl(base, {a: 1, b: undefined})` yields a URL whose query contains
only `a=1`. -/
theorem buildUrl_defined_params (baseUrl : String)
    (params : List (String × Option ParamValue)) :
    buildUrl baseUrl params = UrlModel.mk baseUrl (definedPairs params) ∧
    buildUrl "https://api.github.com/x"
        [("a", some (ParamValue.num 1)), ("b", none)] =
      UrlModel.mk "https://api.github.com/x" [("a", "1")] := by
  constructor
  · exact buildUrl_eq baseUrl params
  · decide
